import Mathlib

/-!
Shallow embedding of `src/kdtree.rs` (a k-d tree vector index).

Modelling conventions:
* `f32` coordinates are embedded as `ℚ`.  Every concrete input used below is a
  small dyadic rational, exactly representable in `f32`, and all comparisons at
  those inputs are strict, so the `f32` program behaves identically.
  `x.powf(2.0)` is embedded as `x ^ 2`.
* Rust's in-bounds slice indexing `v[i]` is embedded as `List.getD v i 0`
  (resp. a default value); all theorems that depend on indexing carry
  hypotheses keeping the accesses in bounds, matching the Rust executions
  they talk about.
* A Rust panic (process abort: index out of bounds, remainder by zero) in
  `KDTree::new` is modelled by the `.error` branch of an `Except Panic`
  result; `.ok` results are the values the Rust function actually returns.
* `Vec::sort_by` is a stable sort by a total comparator (no `NaN` exists in
  `ℚ`, so the `partial_cmp(..).unwrap()` never aborts); it is embedded as the
  stable `List.mergeSort`.
-/

/-- A Rust panic (process termination), as opposed to a value returned to the
caller. -/
inductive Panic where
  | panic (msg : String)
deriving DecidableEq

/-- The node structure of `kdtree.rs` (struct `KDTree`, lines 9-16): an id, a
point, optional left/right children, and the splitting axis (field
`dimension`). -/
inductive KDTree where
  | mk (id : String) (point : List ℚ) (left : Option KDTree) (right : Option KDTree)
      (dimension : Nat)

namespace KDTree

/-- The id of a node. -/
def idOf : KDTree → String
  | .mk id _ _ _ _ => id

/-- The point stored at a node. -/
def pointOf : KDTree → List ℚ
  | .mk _ point _ _ _ => point

/-- The left child of a node. -/
def leftOf : KDTree → Option KDTree
  | .mk _ _ left _ _ => left

/-- The right child of a node. -/
def rightOf : KDTree → Option KDTree
  | .mk _ _ _ right _ => right

/-- The `dimension` field (splitting axis) of a node. -/
def dimensionOf : KDTree → Nat
  | .mk _ _ _ _ dimension => dimension

/-- Embedding of `KDTree::distance_squared` (lines 76-81): sum over zipped coordinates of
the squared difference. -/
def distance_squared (p1 p2 : List ℚ) : ℚ :=
  ((p1.zip p2).map (fun x => (x.1 - x.2) ^ 2)).sum

/-- The comparator passed to `sort_by` on line 24: compare the `axis`
coordinate of two points. -/
def axisLe (axis : Nat) (a b : List ℚ) : Bool :=
  a.getD axis 0 ≤ b.getD axis 0

/-- Embedding of `KDTree::new` (lines 19-37).  Returns `.ok none` for an empty batch
(`data.get(0)?`), otherwise sorts the points (not the ids!) by the axis
coordinate, puts the element at index `len/2` at the node and recurses on the
slices before and after that index.  `.error` models the Rust panics: the
remainder `depth % k` with `k = 0`, and the out-of-bounds `ids[median]`
(evaluated before the recursive calls, since it is the first field of the
struct literal). -/
def new : List (List ℚ) → List String → Nat → Except Panic (Option KDTree)
  | [], _, _ => .ok none
  | p0 :: rest, ids, depth =>
    if p0.length = 0 then
      .error (.panic "attempt to calculate the remainder with a divisor of zero")
    else
      let axis := depth % p0.length
      let sorted := (p0 :: rest).mergeSort (axisLe axis)
      let median := (p0 :: rest).length / 2
      if median < ids.length then
        match new (sorted.take median) (ids.take median) (depth + 1) with
        | .error e => .error e
        | .ok left =>
          match new (sorted.drop (median + 1)) (ids.drop (median + 1)) (depth + 1) with
          | .error e => .error e
          | .ok right =>
            .ok (some (.mk (ids.getD median "") (sorted.getD median []) left right axis))
      else .error (.panic "index out of bounds")
termination_by data _ _ => data.length
decreasing_by
  · simp [List.length_take, List.length_mergeSort]
    omega
  · simp [List.length_drop, List.length_mergeSort]
    omega

/-- Rust's `<` on `Vec<f32>` (via `PartialOrd`), used on line 68: lexicographic
comparison of the two point vectors; a strict prefix is smaller. -/
def listLt : List ℚ → List ℚ → Bool
  | _, [] => false
  | [], _ :: _ => true
  | a :: l1, b :: l2 => if a < b then true else if b < a then false else listLt l1 l2

/-- The guard of line 66: descend into the far child only when it is present
and the square of the query's raw axis coordinate (`target[axis].powf(2.0)`,
not the difference to the node's coordinate) is below the best distance so
far. -/
def farBranchTaken (otherBranch : Option KDTree) (target : List ℚ) (axis : Nat)
    (bestDist : ℚ) : Bool :=
  otherBranch.isSome && decide ((target.getD axis 0) ^ 2 < bestDist)

/-- Lines 68-70: the far child's result replaces the current best when its
point vector is lexicographically smaller than the best point vector. -/
def keepFar (otherBest best : String × List ℚ × ℚ) : String × List ℚ × ℚ :=
  if listLt otherBest.2.1 best.2.1 then otherBest else best

mutual

/-- Embedding of `KDTree::nn_search` (lines 39-74).  Lines 44-48 and 60-64 select the near
(`next_branch`) and far (`other_branch`) child with the same comparison
`target[axis] < current_point[axis]`; the shared rest of the body is
`nn_search_from`. -/
def nn_search : KDTree → List ℚ → String × List ℚ × ℚ
  | .mk id point left right dimension, target =>
    if target.getD dimension 0 < point.getD dimension 0 then
      nn_search_from id point dimension left right target
    else
      nn_search_from id point dimension right left target
termination_by t _ => sizeOf t
decreasing_by
  · simp
    omega
  · simp
    omega

/-- Lines 50-73 of `nn_search`, with the near and far branches already
selected: search the near branch (or take the current node when it is absent),
keep the current node if strictly closer, then conditionally visit the far
branch. -/
def nn_search_from (id : String) (point : List ℚ) (dimension : Nat)
    (nextBranch otherBranch : Option KDTree) (target : List ℚ) :
    String × List ℚ × ℚ :=
  let currentDistance := distance_squared point target
  let best0 :=
    match nextBranch with
    | some next => nn_search next target
    | none => (id, point, currentDistance)
  let best1 := if currentDistance < best0.2.2 then (id, point, currentDistance) else best0
  if farBranchTaken otherBranch target dimension best1.2.2 then
    match otherBranch with
    | some other => keepFar (nn_search other target) best1
    | none => best1
  else best1
termination_by sizeOf nextBranch + sizeOf otherBranch
decreasing_by
  · simp
    omega
  · simp
    omega

end

/-- The leaf produced by `KDTree::new` on a one-element batch, inlined at the
call site of line 121 (`add_recursive` always calls `new` with a single point
and id; see `new_single` below for the connection). -/
def newLeaf (id : String) (point : List ℚ) (depth : Nat) : Option KDTree :=
  some (.mk id point none none (depth % point.length))

/-- Embedding of `KDTree::add_recursive` (lines 110-123): descend by comparing the new
point's coordinate at the node's `dimension`; create a leaf (via `KDTree::new`)
at the first absent child. -/
def add_recursive : KDTree → String → List ℚ → Nat → KDTree
  | .mk nid npoint left right dimension, id, point, depth =>
    if point.getD dimension 0 < npoint.getD dimension 0 then
      match left with
      | some subtree => .mk nid npoint (some (add_recursive subtree id point (depth + 1))) right dimension
      | none => .mk nid npoint (newLeaf id point (depth + 1)) right dimension
    else
      match right with
      | some subtree => .mk nid npoint left (some (add_recursive subtree id point (depth + 1))) dimension
      | none => .mk nid npoint left (newLeaf id point (depth + 1)) dimension

mutual

/-- All `(id, point)` pairs stored in a tree. -/
def entries : KDTree → List (String × List ℚ)
  | .mk id point left right _ => (id, point) :: (entriesO left ++ entriesO right)

/-- All `(id, point)` pairs stored in an optional subtree. -/
def entriesO : Option KDTree → List (String × List ℚ)
  | none => []
  | some t => entries t

end

mutual

/-- Every node's point has length `k` and its `dimension` is below `k`. -/
def wellFormed : KDTree → Nat → Bool
  | .mk _ point left right dimension, k =>
    (point.length == k) && (dimension < k : Bool) && wellFormedO left k && wellFormedO right k

/-- Extension of `wellFormed` to an optional subtree. -/
def wellFormedO : Option KDTree → Nat → Bool
  | none, _ => true
  | some t, k => wellFormed t k

end

mutual

/-- Every node at depth `d` (counting from the depth given for the root) has
`dimension = d % k`. -/
def axisInv : KDTree → Nat → Nat → Bool
  | .mk _ _ left right dimension, k, d =>
    (dimension == d % k) && axisInvO left k (d + 1) && axisInvO right k (d + 1)

/-- Extension of `axisInv` to an optional subtree. -/
def axisInvO : Option KDTree → Nat → Nat → Bool
  | none, _, _ => true
  | some t, k, d => axisInv t k d

end

end KDTree

/-- A JSON document, the value space of `serde_json`. -/
inductive Json where
  | null
  | bool (b : Bool)
  | num (q : ℚ)
  | str (s : String)
  | arr (elems : List Json)
  | obj (fields : List (String × Json))

namespace KDTree

mutual

/-- The JSON document produced for a node by the derived `Serialize` of the
`KDTree` struct (lines 9-16): a field-named record with the struct's fields in
declaration order; an absent child serializes as `null`. -/
def serialize : KDTree → Json
  | .mk id point left right dimension =>
    .obj [("id", .str id), ("point", .arr (point.map Json.num)),
          ("left", serializeO left), ("right", serializeO right),
          ("dimension", .num (dimension : ℚ))]

/-- Serialization of an `Option<Box<KDTree>>` field: `None` becomes `null`. -/
def serializeO : Option KDTree → Json
  | none => .null
  | some t => serialize t

end

/-- Look up a field of a JSON object by name (first occurrence). -/
def getField (fields : List (String × Json)) (key : String) : Option Json :=
  (fields.find? (fun f => f.1 == key)).map (fun f => f.2)

/-- Deserializing an `f32` requires a JSON number. -/
def asNum : Json → Option ℚ
  | .num q => some q
  | _ => none

/-- Deserializing the elements of a `Vec<f32>` one by one, failing on the
first element that is not a number. -/
def asNums : List Json → Option (List ℚ)
  | [] => some []
  | j :: js =>
    match asNum j, asNums js with
    | some q, some qs => some (q :: qs)
    | _, _ => none

/-- Deserializing a `Vec<f32>` requires a JSON array of numbers. -/
def asPoint : Json → Option (List ℚ)
  | .arr elems => asNums elems
  | _ => none

/-- Deserializing a `usize` requires a non-negative integral JSON number. -/
def asUsize : Json → Option Nat
  | .num q => if q.den = 1 ∧ 0 ≤ q.num then some q.num.toNat else none
  | _ => none

/-- Every `List` has positive `sizeOf`. -/
theorem one_le_sizeOf_list {α : Type} [SizeOf α] (l : List α) : 1 ≤ sizeOf l := by
  cases l <;> simp_arith

/-- A field value found by `getField` is structurally smaller than the field
list it came from. -/
theorem sizeOf_getField_le {fields : List (String × Json)} {key : String} :
    sizeOf (getField fields key) ≤ sizeOf fields := by
  unfold getField
  cases h : fields.find? (fun f => f.1 == key) with
  | none =>
    simpa using one_le_sizeOf_list fields
  | some f =>
    have hmem := List.mem_of_find?_eq_some h
    have hlt := List.sizeOf_lt_of_mem hmem
    cases f with
    | mk a b => simp at hlt ⊢; omega

mutual

/-- The derived `Deserialize` of the `KDTree` struct, at the level of JSON
documents: the input must be an object; `id`, `point` and `dimension` are
required fields of the right shape; the `Option` fields `left`/`right`
deserialize to `None` when absent or `null` (serde treats a missing
`Option` field as `None`), and recursively otherwise.  Unknown extra fields
are ignored, as by serde's default. -/
def deserialize : Json → Option KDTree
  | .obj fields =>
    match getField fields "id", getField fields "point", getField fields "dimension" with
    | some (.str id), some jpoint, some jdim =>
      match asPoint jpoint, asUsize jdim with
      | some point, some dimension =>
        match deserializeChild (getField fields "left") with
        | none => none
        | some left =>
          match deserializeChild (getField fields "right") with
          | none => none
          | some right => some (.mk id point left right dimension)
      | _, _ => none
    | _, _, _ => none
  | _ => none
termination_by j => sizeOf j
decreasing_by
  · calc sizeOf (getField fields "left") ≤ sizeOf fields := sizeOf_getField_le
      _ < sizeOf (Json.obj fields) := by simp
  · calc sizeOf (getField fields "right") ≤ sizeOf fields := sizeOf_getField_le
      _ < sizeOf (Json.obj fields) := by simp

/-- Deserialize an `Option<Box<KDTree>>` field from its (possibly absent)
JSON value.  The outer `Option` is failure, the inner one the child. -/
def deserializeChild : Option Json → Option (Option KDTree)
  | none => some none
  | some .null => some none
  | some j => (deserialize j).map some
termination_by oj => sizeOf oj
decreasing_by
  · simp

end

end KDTree

/-! JSON text layer: a parser for the byte stream read by
`KDTree::load_from_file`, modelling the parsing half of
`serde_json::from_str` (the `serde_json` library is not part of this
repository; the grammar below is standard JSON as that library accepts it,
except that `\uXXXX` string escapes are not modelled — no input used in this
file contains them). -/

namespace KDTree

/-- The `"` character. -/
def quoteChar : Char := Char.ofNat 34

/-- The `\` character. -/
def backslashChar : Char := Char.ofNat 92

/-- The opening brace character. -/
def lbraceChar : Char := Char.ofNat 123

/-- The closing brace character. -/
def rbraceChar : Char := Char.ofNat 125

/-- The `[` character. -/
def lbrackChar : Char := Char.ofNat 91

/-- The `]` character. -/
def rbrackChar : Char := Char.ofNat 93

/-- The `,` character. -/
def commaChar : Char := Char.ofNat 44

/-- The `:` character. -/
def colonChar : Char := Char.ofNat 58

/-- Drop leading JSON whitespace (space, newline, tab, carriage return). -/
def skipWs : List Char → List Char
  | [] => []
  | c :: cs =>
    if c = ' ' ∨ c = Char.ofNat 10 ∨ c = Char.ofNat 9 ∨ c = Char.ofNat 13 then skipWs cs
    else c :: cs

/-- Resolve a single-character JSON string escape. -/
def unescapeChar (c : Char) : Option Char :=
  if c = quoteChar then some quoteChar
  else if c = backslashChar then some backslashChar
  else if c = '/' then some '/'
  else if c = 'n' then some (Char.ofNat 10)
  else if c = 't' then some (Char.ofNat 9)
  else if c = 'r' then some (Char.ofNat 13)
  else if c = 'b' then some (Char.ofNat 8)
  else if c = 'f' then some (Char.ofNat 12)
  else none

/-- Parse the body of a JSON string (the opening quote already consumed),
accumulating characters in reverse. -/
def parseStringAux : List Char → List Char → Option (String × List Char)
  | _, [] => none
  | acc, c :: cs =>
    if c = quoteChar then some (String.mk acc.reverse, cs)
    else if c = backslashChar then
      match cs with
      | [] => none
      | e :: cs2 =>
        match unescapeChar e with
        | some ch => parseStringAux (ch :: acc) cs2
        | none => none
    else parseStringAux (c :: acc) cs

/-- Consume a maximal run of decimal digits, returning their value, their
count, and the rest of the input. -/
def takeDigits : List Char → Nat → Nat → Nat × Nat × List Char
  | [], v, n => (v, n, [])
  | c :: cs, v, n =>
    if c.isDigit then takeDigits cs (10 * v + (c.toNat - 48)) (n + 1)
    else (v, n, c :: cs)

/-- Assemble a JSON number from sign, integer part, and fraction digits. -/
def mantissa (neg : Bool) (iv fv fn : Nat) : ℚ :=
  let m : ℚ := iv + (fv : ℚ) / 10 ^ fn
  if neg then -m else m

/-- Apply a decimal exponent to a number. -/
def applyExp (m : ℚ) (expNeg : Bool) (e : Nat) : ℚ :=
  if expNeg then m / 10 ^ e else m * 10 ^ e

/-- Parse an optional exponent part (`e`/`E`, optional sign, digits). -/
def parseExp : List Char → Option (Bool × Nat × List Char)
  | [] => some (false, 0, [])
  | c :: rest =>
    if c = 'e' ∨ c = 'E' then
      match rest with
      | [] => none
      | s :: rest2 =>
        if s = '+' then
          match takeDigits rest2 0 0 with
          | (_, 0, _) => none
          | (ev, _ + 1, cs2) => some (false, ev, cs2)
        else if s = '-' then
          match takeDigits rest2 0 0 with
          | (_, 0, _) => none
          | (ev, _ + 1, cs2) => some (true, ev, cs2)
        else
          match takeDigits rest 0 0 with
          | (_, 0, _) => none
          | (ev, _ + 1, cs2) => some (false, ev, cs2)
    else some (false, 0, c :: rest)

/-- Parse a JSON number (optional minus, digits, optional fraction, optional
exponent). -/
def parseNumber (cs : List Char) : Option (ℚ × List Char) :=
  let signSplit : Bool × List Char :=
    match cs with
    | c :: rest => if c = '-' then (true, rest) else (false, cs)
    | [] => (false, [])
  match takeDigits signSplit.2 0 0 with
  | (_, 0, _) => none
  | (iv, _ + 1, cs2) =>
    match cs2 with
    | c :: rest2 =>
      if c = '.' then
        match takeDigits rest2 0 0 with
        | (_, 0, _) => none
        | (fv, fn, cs3) =>
          (parseExp cs3).map fun x => (applyExp (mantissa signSplit.1 iv fv fn) x.1 x.2.1, x.2.2)
      else
        (parseExp cs2).map fun x => (applyExp (mantissa signSplit.1 iv 0 0) x.1 x.2.1, x.2.2)
    | [] => some (mantissa signSplit.1 iv 0 0, [])

mutual

/-- Parse one JSON value.  The fuel argument bounds the recursion depth; the
entry point `parseJson` passes more fuel than any input can consume. -/
def parseValue : Nat → List Char → Option (Json × List Char)
  | 0, _ => none
  | fuel + 1, cs =>
    match skipWs cs with
    | [] => none
    | c :: rest =>
      if c = quoteChar then
        (parseStringAux [] rest).map (fun x => (Json.str x.1, x.2))
      else if c = lbraceChar then parseMembers fuel rest []
      else if c = lbrackChar then parseElems fuel rest []
      else if c = 't' then
        match rest with
        | 'r' :: 'u' :: 'e' :: rest2 => some (.bool true, rest2)
        | _ => none
      else if c = 'f' then
        match rest with
        | 'a' :: 'l' :: 's' :: 'e' :: rest2 => some (.bool false, rest2)
        | _ => none
      else if c = 'n' then
        match rest with
        | 'u' :: 'l' :: 'l' :: rest2 => some (.null, rest2)
        | _ => none
      else
        (parseNumber (c :: rest)).map (fun x => (Json.num x.1, x.2))

/-- Parse the members of a JSON object after the opening brace, the members
parsed so far accumulated in reverse. -/
def parseMembers : Nat → List Char → List (String × Json) → Option (Json × List Char)
  | 0, _, _ => none
  | fuel + 1, cs, acc =>
    match skipWs cs with
    | [] => none
    | c :: rest =>
      if c = rbraceChar ∧ acc.isEmpty then some (.obj [], rest)
      else if c = quoteChar then
        match parseStringAux [] rest with
        | none => none
        | some (key, rest2) =>
          match skipWs rest2 with
          | [] => none
          | d :: rest3 =>
            if d = colonChar then
              match parseValue fuel rest3 with
              | none => none
              | some (j, rest4) =>
                match skipWs rest4 with
                | [] => none
                | d2 :: rest5 =>
                  if d2 = commaChar then parseMembers fuel rest5 ((key, j) :: acc)
                  else if d2 = rbraceChar then some (.obj ((key, j) :: acc).reverse, rest5)
                  else none
            else none
      else none

/-- Parse the elements of a JSON array after the opening bracket, the elements
parsed so far accumulated in reverse. -/
def parseElems : Nat → List Char → List Json → Option (Json × List Char)
  | 0, _, _ => none
  | fuel + 1, cs, acc =>
    match skipWs cs with
    | [] => none
    | c :: rest =>
      if c = rbrackChar ∧ acc.isEmpty then some (.arr [], rest)
      else
        match parseValue fuel (c :: rest) with
        | none => none
        | some (j, rest2) =>
          match skipWs rest2 with
          | [] => none
          | d :: rest3 =>
            if d = commaChar then parseElems fuel rest3 (j :: acc)
            else if d = rbrackChar then some (.arr (j :: acc).reverse, rest3)
            else none

end

/-- Parse a complete JSON document: one value, then only trailing whitespace
(`serde_json::from_str` rejects trailing garbage). -/
def parseJson (s : String) : Option Json :=
  match parseValue (s.length + 2) s.data with
  | none => none
  | some (j, rest) =>
    match skipWs rest with
    | [] => some j
    | _ :: _ => none

/-- Embedding of `serde_json::from_str::<KDTree>` as used on line 95: parse the text, then
deserialize the document; any failure is a `serde_json::Error`. -/
def from_str (s : String) : Option KDTree :=
  (parseJson s).bind deserialize

/-- The `std::io::ErrorKind` values relevant here.  `invalidData` is the kind
that `From<serde_json::Error> for std::io::Error` gives every non-I/O
`serde_json::Error` (and also the kind of the `read_to_string` error on
non-UTF-8 bytes). -/
inductive ErrorKind where
  | notFound
  | permissionDenied
  | invalidData
  | otherKind
deriving DecidableEq

/-- Embedding of `KDTree::load_from_file` (lines 91-97), given the result of the I/O stage
(`File::open` + `read_to_string`): an I/O error propagates unchanged via `?`;
a parse/deserialize failure is converted by `?` through
`From<serde_json::Error> for std::io::Error` into an `std::io::Error` of kind
`InvalidData` — the same caller-visible type `std::io::Result` uses for I/O
failures. -/
def load_from_file (readResult : Except ErrorKind String) : Except ErrorKind KDTree :=
  match readResult with
  | .error e => .error e
  | .ok contents =>
    match from_str contents with
    | some t => .ok t
    | none => .error .invalidData

/-- The two access modes of `tokio::sync::RwLock`. -/
inductive LockMode where
  | read
  | write
deriving DecidableEq

/-- Embedding of `KDTree::save_to_file` (lines 83-89): acquires `tree.read()` — the shared
lock — and serializes the tree. -/
def save_to_file (t : KDTree) : LockMode × Json :=
  (.read, serialize t)

/-- Embedding of `KDTree::nearest_neighbor` (lines 99-103): acquires `tree.read()` and
returns the id and point (dropping the distance) of `nn_search`. -/
def nearest_neighbor (t : KDTree) (target : List ℚ) : LockMode × (String × List ℚ) :=
  (.read, ((nn_search t target).1, (nn_search t target).2.1))

/-- Embedding of `KDTree::add` (lines 105-108): acquires `tree.write()` — the exclusive
lock — and inserts via `add_recursive` starting at depth 0. -/
def add (t : KDTree) (id : String) (point : List ℚ) : LockMode × KDTree :=
  (.write, add_recursive t id point 0)

end KDTree

/-! Concrete trees used in the claim theorems below.  All coordinates are
small dyadic rationals, exactly representable in `f32`. -/

namespace KDTree

/-- The tree `KDTree::new` builds from points `[[0,0],[5,10],[5.25,0]]` with
ids `[a,b,c]` (proved as `new_tBug`). -/
def tBug : KDTree :=
  .mk "b" [5, 10] (some (.mk "a" [0, 0] none none 1))
    (some (.mk "c" [21/4, 0] none none 1)) 0

/-- The tree `KDTree::new` builds from points `[[0,10],[1,0],[1,-5]]` with
ids `[a,b,c]` (proved as `new_tLex`). -/
def tLex : KDTree :=
  .mk "b" [1, 0] (some (.mk "a" [0, 10] none none 1))
    (some (.mk "c" [1, -5] none none 1)) 0

/-- The tree `KDTree::new` builds from the spec's five-point diagonal batch
(proved in the C6 theorem). -/
def tFive : KDTree :=
  .mk "c" [3, 3]
    (some (.mk "b" [2, 2] (some (.mk "a" [1, 1] none none 0)) none 1))
    (some (.mk "e" [5, 5] (some (.mk "d" [4, 4] none none 0)) none 1)) 0

/-! Theorems. -/

/-- The function `new` on an empty batch returns no tree (`data.get(0)?`). -/
theorem new_nil (ids : List String) (depth : Nat) : new [] ids depth = .ok none := by
  simp [new]

/-- Unfolding of `KDTree::new` on a non-empty batch that is already sorted
along the axis `depth % k` (so the stable sort leaves it unchanged): the
element at index `len/2` becomes the node, the strict left and right slices
are recursed on with `depth + 1`. -/
theorem new_sorted (p0 : List ℚ) (rest : List (List ℚ)) (ids : List String) (depth : Nat)
    (hk : p0.length ≠ 0)
    (hs : (p0 :: rest).Pairwise (fun a b => axisLe (depth % p0.length) a b = true))
    (hm : (p0 :: rest).length / 2 < ids.length) :
    new (p0 :: rest) ids depth =
      match new ((p0 :: rest).take ((p0 :: rest).length / 2))
                (ids.take ((p0 :: rest).length / 2)) (depth + 1) with
      | .error e => .error e
      | .ok left =>
        match new ((p0 :: rest).drop ((p0 :: rest).length / 2 + 1))
                  (ids.drop ((p0 :: rest).length / 2 + 1)) (depth + 1) with
        | .error e => .error e
        | .ok right =>
          .ok (some (.mk (ids.getD ((p0 :: rest).length / 2) "")
                         ((p0 :: rest).getD ((p0 :: rest).length / 2) [])
                         left right (depth % p0.length))) := by
  rw [new]
  simp only [List.mergeSort_of_sorted hs, if_neg hk, if_pos hm]

/-- The function `new` on a one-element batch yields exactly the leaf that
`add_recursive` (via `newLeaf`) installs at line 121. -/
theorem new_single (p : List ℚ) (i : String) (depth : Nat) (hp : p.length ≠ 0) :
    new [p] [i] depth = .ok (newLeaf i p depth) := by
  have hs : ([p] : List (List ℚ)).Pairwise
      (fun a b => axisLe (depth % p.length) a b = true) := by simp
  have h := new_sorted p [] [i] depth hp hs (by simp)
  rw [h]
  norm_num [new_nil, newLeaf]

/-- Building the first counterexample tree. -/
theorem new_tBug : new [[0, 0], [5, 10], [21/4, 0]] ["a", "b", "c"] 0 = .ok (some tBug) := by
  have h1 : new [[0, 0]] ["a"] 1 = .ok (newLeaf "a" [0, 0] 1) :=
    new_single _ _ _ (by norm_num)
  have h2 : new [[21/4, 0]] ["c"] 1 = .ok (newLeaf "c" [21/4, 0] 1) :=
    new_single _ _ _ (by norm_num)
  have hs : ([[0, 0], [5, 10], [21/4, 0]] : List (List ℚ)).Pairwise
      (fun a b => axisLe (0 % ([0, 0] : List ℚ).length) a b = true) := by
    norm_num [axisLe]
  have h := new_sorted [0, 0] [[5, 10], [21/4, 0]] ["a", "b", "c"] 0 (by norm_num) hs
    (by norm_num)
  rw [h]
  norm_num [h1, h2, tBug, newLeaf]

end KDTree

namespace KDTree

/-- Building the second counterexample tree. -/
theorem new_tLex : new [[0, 10], [1, 0], [1, -5]] ["a", "b", "c"] 0 = .ok (some tLex) := by
  have h1 : new [[0, 10]] ["a"] 1 = .ok (newLeaf "a" [0, 10] 1) :=
    new_single _ _ _ (by norm_num)
  have h2 : new [[1, -5]] ["c"] 1 = .ok (newLeaf "c" [1, -5] 1) :=
    new_single _ _ _ (by norm_num)
  have hs : ([[0, 10], [1, 0], [1, -5]] : List (List ℚ)).Pairwise
      (fun a b => axisLe (0 % ([0, 10] : List ℚ).length) a b = true) := by
    norm_num [axisLe]
  have h := new_sorted [0, 10] [[1, 0], [1, -5]] ["a", "b", "c"] 0 (by norm_num) hs
    (by norm_num)
  rw [h]
  norm_num [h1, h2, tLex, newLeaf]

/-- Building the spec's five-point scenario tree. -/
theorem new_tFive :
    new [[1, 1], [2, 2], [3, 3], [4, 4], [5, 5]] ["a", "b", "c", "d", "e"] 0 =
      .ok (some tFive) := by
  have hla : new [[1, 1]] ["a"] 2 = .ok (newLeaf "a" [1, 1] 2) :=
    new_single _ _ _ (by norm_num)
  have hld : new [[4, 4]] ["d"] 2 = .ok (newLeaf "d" [4, 4] 2) :=
    new_single _ _ _ (by norm_num)
  have hsl : ([[1, 1], [2, 2]] : List (List ℚ)).Pairwise
      (fun a b => axisLe (1 % ([1, 1] : List ℚ).length) a b = true) := by
    norm_num [axisLe]
  have hl := new_sorted [1, 1] [[2, 2]] ["a", "b"] 1 (by norm_num) hsl (by norm_num)
  have hsr : ([[4, 4], [5, 5]] : List (List ℚ)).Pairwise
      (fun a b => axisLe (1 % ([4, 4] : List ℚ).length) a b = true) := by
    norm_num [axisLe]
  have hr := new_sorted [4, 4] [[5, 5]] ["d", "e"] 1 (by norm_num) hsr (by norm_num)
  have hs : ([[1, 1], [2, 2], [3, 3], [4, 4], [5, 5]] : List (List ℚ)).Pairwise
      (fun a b => axisLe (0 % ([1, 1] : List ℚ).length) a b = true) := by
    norm_num [axisLe]
  have h := new_sorted [1, 1] [[2, 2], [3, 3], [4, 4], [5, 5]] ["a", "b", "c", "d", "e"] 0
    (by norm_num) hs (by norm_num)
  rw [h]
  norm_num [hl, hr, hla, hld, new_nil, tFive, newLeaf]

/-- Evaluating `nn_search` at a leaf returns the leaf's id, point, and distance. -/
theorem nn_search_leaf (id : String) (point : List ℚ) (dimension : Nat) (target : List ℚ) :
    nn_search (.mk id point none none dimension) target =
      (id, point, distance_squared point target) := by
  rw [nn_search]
  by_cases h : target.getD dimension 0 < point.getD dimension 0 <;>
    simp [h, nn_search_from, farBranchTaken]

/-- Evaluating `nn_search` on `tBug` at query `[19/4, 0]`: the returned
distance is `361/16`, the distance to `[0,0]`. -/
theorem nn_search_tBug : nn_search tBug [19/4, 0] = ("a", [0, 0], 361/16) := by
  rw [tBug, nn_search]
  norm_num [nn_search_from, nn_search_leaf, distance_squared, farBranchTaken, keepFar, listLt]

end KDTree

namespace KDTree

/-- Evaluating `nn_search` on `tLex` at query `[1/4, 0]`: the far child's
result (distance `409/16`) replaces the strictly better current best
(distance `9/16`) because of the lexicographic comparison. -/
theorem nn_search_tLex : nn_search tLex [1/4, 0] = ("c", [1, -5], 409/16) := by
  rw [tLex, nn_search]
  norm_num [nn_search_from, nn_search_leaf, distance_squared, farBranchTaken, keepFar, listLt]

end KDTree

namespace KDTree

/-- C1: the claim that for every tree built by the Builder and every query of
the tree's dimensionality, `nn_search` returns the minimum squared Euclidean
distance over all stored points, is false.  On the tree built from
`[[0,0],[5,10],[5.25,0]]` with ids `[a,b,c]`, the query `[4.75,0]` returns
the point `[0,0]` at squared distance `22.5625`, although the stored point
`[5.25,0]` lies at squared distance `0.25`.  (The buggy far-branch guard of
line 66 prunes the subtree holding the true nearest neighbor.) -/
theorem nn_search_not_exact :
    new [[0, 0], [5, 10], [21/4, 0]] ["a", "b", "c"] 0 = .ok (some tBug) ∧
    nn_search tBug [19/4, 0] = ("a", [0, 0], 361/16) ∧
    ("c", [21/4, 0]) ∈ entries tBug ∧
    distance_squared [21/4, 0] [19/4, 0] = 1/4 ∧
    (1/4 : ℚ) < 361/16 :=
  ⟨new_tBug, nn_search_tBug, by simp [entries, entriesO, tBug],
   by norm_num [distance_squared], by norm_num⟩

/-- C2: the claim that the search descends into a present far child exactly
when the squared difference between the query's and the node's coordinate
along the splitting axis is below the best distance so far, is false.  At the
root of `tBug` (point `[5,10]`, axis 0) with best distance `361/16`, the far
child is present and the claimed condition holds
(`(4.75 - 5)^2 = 0.0625 < 22.5625`), but the code's guard — which squares the
query coordinate itself instead of the difference — evaluates to false, so the
far child is not visited. -/
theorem far_branch_wrongly_pruned :
    nn_search tBug [19/4, 0] = ("a", [0, 0], 361/16) ∧
    rightOf tBug = some (.mk "c" [21/4, 0] none none 1) ∧
    farBranchTaken (some (.mk "c" [21/4, 0] none none 1)) [19/4, 0] 0 (361/16) = false ∧
    ((19/4 : ℚ) - 5) ^ 2 < 361/16 :=
  ⟨nn_search_tBug, by simp [rightOf, tBug], by norm_num [farBranchTaken], by norm_num⟩

/-- C3: the claim that the far child's result replaces the current best
exactly when its squared distance is smaller, is false.  On `tLex` with query
`[0.25, 0]` the search reaches the far comparison with current best
`("b", [1,0], 9/16)` and far result `("c", [1,-5], 409/16)`; the far result's
distance is larger, yet it is kept, because line 68 compares the point
vectors lexicographically (`[1,-5] < [1,0]`) instead of the distances. -/
theorem far_result_kept_by_lex_order :
    new [[0, 10], [1, 0], [1, -5]] ["a", "b", "c"] 0 = .ok (some tLex) ∧
    nn_search tLex [1/4, 0] = ("c", [1, -5], 409/16) ∧
    distance_squared [1, 0] [1/4, 0] = 9/16 ∧
    keepFar ("c", [1, -5], 409/16) ("b", [1, 0], 9/16) = ("c", [1, -5], 409/16) ∧
    ¬ ((409/16 : ℚ) < 9/16) :=
  ⟨new_tLex, nn_search_tLex, by norm_num [distance_squared],
   by norm_num [keepFar, listLt], by norm_num⟩

end KDTree

namespace KDTree

/-- C6: the Builder returns an empty result for an empty batch; for a
non-empty batch sorted along axis `depth % k` it places the element at index
`len/2` (the upper median) at the node and recurses on the strict left and
right slices with `depth + 1`; and the five-point diagonal batch with ids
`[a,b,c,d,e]` yields root point `[3,3]` with axis 0, left subtree rooted at
`[2,2]` and right subtree rooted at `[5,5]`. -/
theorem builder_median_split :
    (∀ (ids : List String) (depth : Nat), new [] ids depth = .ok none) ∧
    (∀ (p0 : List ℚ) (rest : List (List ℚ)) (ids : List String) (depth : Nat),
      p0.length ≠ 0 →
      (p0 :: rest).Pairwise (fun a b => axisLe (depth % p0.length) a b = true) →
      (p0 :: rest).length / 2 < ids.length →
      new (p0 :: rest) ids depth =
        match new ((p0 :: rest).take ((p0 :: rest).length / 2))
                  (ids.take ((p0 :: rest).length / 2)) (depth + 1) with
        | .error e => .error e
        | .ok left =>
          match new ((p0 :: rest).drop ((p0 :: rest).length / 2 + 1))
                    (ids.drop ((p0 :: rest).length / 2 + 1)) (depth + 1) with
          | .error e => .error e
          | .ok right =>
            .ok (some (.mk (ids.getD ((p0 :: rest).length / 2) "")
                           ((p0 :: rest).getD ((p0 :: rest).length / 2) [])
                           left right (depth % p0.length)))) ∧
    (new [[1, 1], [2, 2], [3, 3], [4, 4], [5, 5]] ["a", "b", "c", "d", "e"] 0 =
        .ok (some tFive) ∧
      pointOf tFive = [3, 3] ∧ dimensionOf tFive = 0 ∧
      (leftOf tFive).map pointOf = some [2, 2] ∧
      (rightOf tFive).map pointOf = some [5, 5]) :=
  ⟨new_nil, new_sorted,
   new_tFive, by simp [pointOf, tFive], by simp [dimensionOf, tFive],
   by simp [leftOf, pointOf, tFive], by simp [rightOf, pointOf, tFive]⟩

/-- Witness for C6: the sorted-batch unfolding applied to the concrete batch
`[[1],[2]]` with ids `[a,b]` at depth 0. -/
theorem builder_median_split_witness :
    new [[1], [2]] ["a", "b"] 0 =
      (match new [[1]] ["a"] 1 with
       | .error e => .error e
       | .ok left =>
         match new ([] : List (List ℚ)) ([] : List String) 1 with
         | .error e => .error e
         | .ok right => .ok (some (.mk "b" [2] left right 0))) := by
  have h := builder_median_split.2.1 [1] [[2]] ["a", "b"] 0 (by norm_num)
    (by norm_num [axisLe]) (by norm_num)
  simpa using h

end KDTree

namespace KDTree

/-- Counterexample to C8: `KDTree::new` on two points but a single id panics
with an index-out-of-bounds (`ids[median]` with `median = 1`), i.e. the
process terminates; no input-contract error value is returned. -/
theorem mismatched_lengths_abort :
    new [[1], [2]] ["a"] 0 = .error (.panic "index out of bounds") := by
  rw [new]
  norm_num

/-- C8 as amended: whenever the identifier batch is too short for the median
index (`ids.len() ≤ data.len() / 2`, in particular whenever `ids` is shorter
than a non-empty `data` by enough), the Builder does not signal a typed
input-contract error: it panics (index out of bounds) — and a longer `ids`
batch is silently accepted.  This theorem proves the panic half. -/
theorem mismatched_lengths_panic (p0 : List ℚ) (rest : List (List ℚ)) (ids : List String)
    (depth : Nat) (hk : p0.length ≠ 0) (hm : ids.length ≤ (p0 :: rest).length / 2) :
    new (p0 :: rest) ids depth = .error (.panic "index out of bounds") := by
  rw [new]
  have hnm : ¬ ((p0 :: rest).length / 2 < ids.length) := by omega
  simp only [if_neg hk, if_neg hnm]

/-- Witness for the amended C8 theorem at a concrete input: three points, one
id. -/
theorem mismatched_lengths_panic_witness :
    new [[1], [2], [3]] ["a"] 0 = .error (.panic "index out of bounds") :=
  mismatched_lengths_panic [1] [[2], [3]] ["a"] 0 (by norm_num) (by norm_num)

/-- Counterexample to C9: `KDTree::save_to_file` (line 84) acquires the
shared read lock, not the exclusive write lock the claim asserts. -/
theorem save_acquires_read_lock :
    (save_to_file (.mk "a" [0] none none 0)).1 = LockMode.read ∧
    LockMode.read ≠ LockMode.write := by
  constructor
  · rfl
  · decide

/-- C9 as amended: the save operation acquires the shared (read) lock for the
duration of serialization, the Mutator acquires the exclusive (write) lock,
and the Searcher acquires the shared (read) lock. -/
theorem lock_modes (t : KDTree) (target point : List ℚ) (id : String) :
    (save_to_file t).1 = LockMode.read ∧
    (add t id point).1 = LockMode.write ∧
    (nearest_neighbor t target).1 = LockMode.read :=
  ⟨rfl, rfl, rfl⟩

end KDTree

namespace KDTree

/-- Deserializing the serialization of a point list recovers it. -/
theorem asNums_map_num (pt : List ℚ) : asNums (pt.map Json.num) = some pt := by
  induction pt with
  | nil => rfl
  | cons q rest ih => simp [asNums, asNum, ih]

/-- Deserializing a serialized `usize` recovers it. -/
theorem asUsize_natCast (n : Nat) : asUsize (.num (n : ℚ)) = some n := by
  simp [asUsize]

mutual

/-- Deserializing the serialization of any tree recovers the tree exactly. -/
theorem deserialize_serialize : ∀ (t : KDTree), deserialize (serialize t) = some t
  | .mk id point left right dimension => by
    rw [serialize, deserialize]
    simp [getField, asPoint, asNums_map_num, asUsize_natCast,
      deserializeChild_serializeO left, deserializeChild_serializeO right]

/-- Deserializing the serialization of an optional child recovers it. -/
theorem deserializeChild_serializeO :
    ∀ (o : Option KDTree), deserializeChild (some (serializeO o)) = some o
  | none => by
    rw [serializeO]
    simp [deserializeChild]
  | some t => by
    cases t with
    | mk id point left right dimension =>
      have h := deserialize_serialize (.mk id point left right dimension)
      rw [serialize] at h
      rw [serializeO, serialize]
      simp [deserializeChild, h]

end

/-- C4: deserializing the serialization of any tree — in particular any tree
produced by `new` and extended by `add_recursive` — yields a tree whose every
node has identical id, point, axis (`dimension`), and left/right
presence/absence: the round trip is the identity on whole trees. -/
theorem load_save_round_trip (t : KDTree) : deserialize (serialize t) = some t :=
  deserialize_serialize t

/-- Counterexample to C5: a parse failure and an I/O failure surface to the
caller as the very same error value of the single error type of
`load_from_file` (`std::io::Error`, kind `InvalidData` — the kind
`read_to_string` also produces for non-UTF-8 bytes), so the two conditions
are not distinguishable by type. -/
theorem parse_and_io_failures_collide :
    load_from_file (.ok "garbage") = .error .invalidData ∧
    load_from_file (.error .invalidData) = .error .invalidData :=
  ⟨rfl, rfl⟩

/-- C5 as amended: `load_from_file` does signal parse failures and does
propagate I/O failures, but both through the same error type: a
parse/deserialize failure is converted (by `?` and
`From<serde_json::Error> for io::Error`) into the I/O error kind
`InvalidData` rather than a distinct type; an I/O-stage error is returned
unchanged; a successfully parsed tree is returned. -/
theorem load_error_channels :
    (∀ s : String, from_str s = none →
      load_from_file (.ok s) = .error .invalidData) ∧
    (∀ e : ErrorKind, load_from_file (.error e) = .error e) := by
  refine ⟨fun s hs => ?_, fun e => rfl⟩
  rw [load_from_file, hs]

/-- Witness for the amended C5 theorem: a malformed document and a failed
read, at concrete inputs. -/
theorem load_error_channels_witness :
    load_from_file (.ok "not json") = .error .invalidData ∧
    load_from_file (.error .notFound) = .error .notFound :=
  ⟨load_error_channels.1 "not json" rfl, load_error_channels.2 .notFound⟩

end KDTree

namespace KDTree

/-- Every node of a tree built by `KDTree::new` from points of uniform length
`k` satisfies the axis invariant `dimension = depth % k`. -/
theorem new_axisInv : ∀ (data : List (List ℚ)) (ids : List String) (depth k : Nat)
    (t : KDTree), (∀ p ∈ data, p.length = k) → new data ids depth = .ok (some t) →
    axisInv t k depth = true
  | [], _, _, _, _, _, h => by simp [new] at h
  | p0 :: rest, ids, depth, k, t, hlen, h => by
    rw [new] at h
    by_cases hk : p0.length = 0
    · rw [if_pos hk] at h
      exact absurd h (by simp)
    · simp only [if_neg hk] at h
      by_cases hm : (p0 :: rest).length / 2 < ids.length
      · simp only [if_pos hm] at h
        cases hL : new (((p0 :: rest).mergeSort (axisLe (depth % p0.length))).take
            ((p0 :: rest).length / 2)) (ids.take ((p0 :: rest).length / 2)) (depth + 1) with
        | error e => rw [hL] at h; simp at h
        | ok left =>
          cases hR : new (((p0 :: rest).mergeSort (axisLe (depth % p0.length))).drop
              ((p0 :: rest).length / 2 + 1)) (ids.drop ((p0 :: rest).length / 2 + 1))
              (depth + 1) with
          | error e => rw [hL, hR] at h; simp at h
          | ok right =>
            rw [hL, hR] at h
            simp only [Except.ok.injEq, Option.some.injEq] at h
            subst h
            rw [axisInv]
            have hk0 : p0.length = k := hlen p0 (List.mem_cons_self _ _)
            have hLinv : axisInvO left k (depth + 1) = true := by
              cases left with
              | none => rfl
              | some tl =>
                exact new_axisInv _ _ (depth + 1) k tl
                  (fun p hp => hlen p (List.mem_mergeSort.mp (List.mem_of_mem_take hp)))
                  hL
            have hRinv : axisInvO right k (depth + 1) = true := by
              cases right with
              | none => rfl
              | some tr =>
                exact new_axisInv _ _ (depth + 1) k tr
                  (fun p hp => hlen p (List.mem_mergeSort.mp (List.mem_of_mem_drop hp)))
                  hR
            simp [hk0, hLinv, hRinv]
      · rw [if_neg hm] at h
        exact absurd h (by simp)
termination_by data _ _ _ _ _ _ => data.length
decreasing_by
  · simp [List.length_take, List.length_mergeSort]
    omega
  · simp [List.length_drop, List.length_mergeSort]
    omega

/-- The mutator `add_recursive` preserves the axis invariant when inserting a point of
the tree's dimensionality at the correct depth. -/
theorem add_recursive_axisInv : ∀ (t : KDTree) (k : Nat) (id : String) (point : List ℚ)
    (depth : Nat), axisInv t k depth = true → point.length = k →
    axisInv (add_recursive t id point depth) k depth = true
  | .mk nid npt l r dim, k, id, point, depth, hinv, hp => by
    rw [axisInv] at hinv
    simp only [Bool.and_eq_true] at hinv
    obtain ⟨⟨hdim, hL⟩, hR⟩ := hinv
    cases l with
    | none =>
      cases r with
      | none =>
        rw [add_recursive]
        by_cases hc : point.getD dim 0 < npt.getD dim 0
        · rw [if_pos hc]
          simp [axisInv, axisInvO, newLeaf, hdim, hp]
        · rw [if_neg hc]
          simp [axisInv, axisInvO, newLeaf, hdim, hp]
      | some sr =>
        rw [add_recursive]
        have hR2 : axisInv sr k (depth + 1) = true := by simpa [axisInvO] using hR
        have hrec := add_recursive_axisInv sr k id point (depth + 1) hR2 hp
        by_cases hc : point.getD dim 0 < npt.getD dim 0
        · rw [if_pos hc]
          simp [axisInv, axisInvO, newLeaf, hdim, hp, hR2]
        · rw [if_neg hc]
          simp [axisInv, axisInvO, hdim, hrec]
    | some sl =>
      cases r with
      | none =>
        rw [add_recursive]
        have hL2 : axisInv sl k (depth + 1) = true := by simpa [axisInvO] using hL
        have hrec := add_recursive_axisInv sl k id point (depth + 1) hL2 hp
        by_cases hc : point.getD dim 0 < npt.getD dim 0
        · rw [if_pos hc]
          simp [axisInv, axisInvO, hdim, hrec]
        · rw [if_neg hc]
          simp [axisInv, axisInvO, newLeaf, hdim, hp, hL2]
      | some sr =>
        rw [add_recursive]
        have hL2 : axisInv sl k (depth + 1) = true := by simpa [axisInvO] using hL
        have hR2 : axisInv sr k (depth + 1) = true := by simpa [axisInvO] using hR
        have hrecl := add_recursive_axisInv sl k id point (depth + 1) hL2 hp
        have hrecr := add_recursive_axisInv sr k id point (depth + 1) hR2 hp
        by_cases hc : point.getD dim 0 < npt.getD dim 0
        · rw [if_pos hc]
          simp [axisInv, axisInvO, hdim, hrecl, hR2]
        · rw [if_neg hc]
          simp [axisInv, axisInvO, hdim, hrecr, hL2]

/-- C7: in every tree the Builder produces at depth 0 from points of uniform
length `k`, every node at depth `d` has `dimension = d % k` (the predicate
`axisInv t k 0` states exactly this recursively), and every insertion through
`KDTree::add` of a point of length `k` preserves the invariant. -/
theorem axis_depth_invariant :
    (∀ (data : List (List ℚ)) (ids : List String) (k : Nat) (t : KDTree),
      (∀ p ∈ data, p.length = k) → new data ids 0 = .ok (some t) →
      axisInv t k 0 = true) ∧
    (∀ (t : KDTree) (k : Nat) (id : String) (point : List ℚ),
      axisInv t k 0 = true → point.length = k →
      axisInv ((add t id point).2) k 0 = true) :=
  ⟨fun data ids k t h1 h2 => new_axisInv data ids 0 k t h1 h2,
   fun t k id point h1 h2 => add_recursive_axisInv t k id point 0 h1 h2⟩

/-- Witness for C7: the five-point scenario tree and an insertion into it. -/
theorem axis_depth_invariant_witness :
    axisInv tFive 2 0 = true ∧ axisInv ((add tFive "f" [6, 6]).2) 2 0 = true := by
  have h1 : axisInv tFive 2 0 = true :=
    axis_depth_invariant.1 [[1, 1], [2, 2], [3, 3], [4, 4], [5, 5]]
      ["a", "b", "c", "d", "e"] 2 tFive
      (by intro p hp; fin_cases hp <;> rfl) new_tFive
  exact ⟨h1, axis_depth_invariant.2 tFive 2 "f" [6, 6] h1 rfl⟩

end KDTree

namespace KDTree

/-- The comparison step `keepFar` returns one of its two arguments. -/
theorem keepFar_eq_or (a b : String × List ℚ × ℚ) : keepFar a b = a ∨ keepFar a b = b := by
  rw [keepFar]
  split
  · exact Or.inl rfl
  · exact Or.inr rfl

mutual

/-- The triple `nn_search` returns is always the id and point of a stored
node together with that point's distance to the query. -/
theorem nn_search_entry : ∀ (t : KDTree) (target : List ℚ),
    ((nn_search t target).1, (nn_search t target).2.1) ∈ entries t ∧
    (nn_search t target).2.2 = distance_squared (nn_search t target).2.1 target
  | .mk id point left right dim, target => by
    rw [nn_search]
    by_cases hc : target.getD dim 0 < point.getD dim 0
    · rw [if_pos hc, entries]
      exact nn_search_from_entry id point dim left right target
    · rw [if_neg hc, entries]
      have h := nn_search_from_entry id point dim right left target
      refine ⟨?_, h.2⟩
      have hm := h.1
      simp only [List.mem_cons, List.mem_append] at hm ⊢
      tauto
termination_by t _ => sizeOf t
decreasing_by
  · simp
    omega
  · simp
    omega

/-- The shared search body returns either the current node's pair or a pair
stored in one of the two branches, with the matching distance. -/
theorem nn_search_from_entry : ∀ (id : String) (point : List ℚ) (dim : Nat)
    (nb ob : Option KDTree) (target : List ℚ),
    ((nn_search_from id point dim nb ob target).1,
        (nn_search_from id point dim nb ob target).2.1) ∈
      (id, point) :: (entriesO nb ++ entriesO ob) ∧
    (nn_search_from id point dim nb ob target).2.2 =
      distance_squared (nn_search_from id point dim nb ob target).2.1 target
  | id, point, dim, none, none, target => by
    simp [nn_search_from, farBranchTaken, entriesO]
  | id, point, dim, none, some other, target => by
    have hother := nn_search_entry other target
    simp only [nn_search_from]
    by_cases hg : farBranchTaken (some other) target dim
        (id, point, distance_squared point target).2.2
    · rw [if_neg (lt_irrefl _), if_pos hg]
      rcases keepFar_eq_or (nn_search other target) (id, point, distance_squared point target)
        with hk | hk <;> rw [hk]
      · refine ⟨?_, hother.2⟩
        have hm := hother.1
        simp only [entriesO, List.mem_cons, List.mem_append, List.not_mem_nil] at hm ⊢
        tauto
      · exact ⟨by simp, rfl⟩
    · rw [if_neg (lt_irrefl _), if_neg hg]
      exact ⟨by simp, rfl⟩
  | id, point, dim, some next, none, target => by
    have hnext := nn_search_entry next target
    simp only [nn_search_from]
    by_cases hcd : distance_squared point target < (nn_search next target).2.2
    · rw [if_pos hcd]
      simp [farBranchTaken, entriesO]
    · rw [if_neg hcd]
      simp only [farBranchTaken, Option.isSome_none, Bool.false_and, Bool.false_eq_true,
        if_false, ite_false]
      refine ⟨?_, hnext.2⟩
      have hm := hnext.1
      simp only [entriesO, List.mem_cons, List.mem_append, List.not_mem_nil] at hm ⊢
      tauto
  | id, point, dim, some next, some other, target => by
    have hnext := nn_search_entry next target
    have hother := nn_search_entry other target
    simp only [nn_search_from]
    by_cases hcd : distance_squared point target < (nn_search next target).2.2
    · rw [if_pos hcd]
      by_cases hg : farBranchTaken (some other) target dim
          (id, point, distance_squared point target).2.2
      · rw [if_pos hg]
        rcases keepFar_eq_or (nn_search other target)
            (id, point, distance_squared point target) with hk | hk <;> rw [hk]
        · refine ⟨?_, hother.2⟩
          have hm := hother.1
          simp only [entriesO, List.mem_cons, List.mem_append] at hm ⊢
          tauto
        · exact ⟨by simp, rfl⟩
      · rw [if_neg hg]
        exact ⟨by simp, rfl⟩
    · rw [if_neg hcd]
      by_cases hg : farBranchTaken (some other) target dim (nn_search next target).2.2
      · rw [if_pos hg]
        rcases keepFar_eq_or (nn_search other target) (nn_search next target)
          with hk | hk <;> rw [hk]
        · refine ⟨?_, hother.2⟩
          have hm := hother.1
          simp only [entriesO, List.mem_cons, List.mem_append] at hm ⊢
          tauto
        · refine ⟨?_, hnext.2⟩
          have hm := hnext.1
          simp only [entriesO, List.mem_cons, List.mem_append] at hm ⊢
          tauto
      · rw [if_neg hg]
        refine ⟨?_, hnext.2⟩
        have hm := hnext.1
        simp only [entriesO, List.mem_cons, List.mem_append] at hm ⊢
        tauto
termination_by _ _ _ nb ob _ => sizeOf nb + sizeOf ob
decreasing_by
  all_goals simp
  all_goals omega

end

end KDTree

namespace KDTree

/-- C10: for every tree (of uniform dimensionality `k`) and every query point
of length at least `k`, the triple returned by `nn_search` refers to a node
actually present in the tree — its id/point pair is stored — and the returned
squared distance is exactly the squared Euclidean distance between the
returned point and the query, whether or not it is the global minimum. -/
theorem nn_search_returns_stored_point (t : KDTree) (k : Nat) (target : List ℚ)
    (_hwf : wellFormed t k = true) (_hlen : k ≤ target.length) :
    ((nn_search t target).1, (nn_search t target).2.1) ∈ entries t ∧
    (nn_search t target).2.2 = distance_squared (nn_search t target).2.1 target :=
  nn_search_entry t target

/-- Witness for C10: the five-point scenario tree with query `[4, 4]`. -/
theorem nn_search_returns_stored_point_witness :
    wellFormed tFive 2 = true ∧ 2 ≤ ([4, 4] : List ℚ).length ∧
    (((nn_search tFive [4, 4]).1, (nn_search tFive [4, 4]).2.1) ∈ entries tFive ∧
      (nn_search tFive [4, 4]).2.2 =
        distance_squared (nn_search tFive [4, 4]).2.1 [4, 4]) :=
  ⟨rfl, by norm_num, nn_search_returns_stored_point tFive 2 [4, 4] rfl (by norm_num)⟩

end KDTree
